import Mathlib

/-!
Verification of the ChatAgentSystem conversational agent runtime.

Shallow embedding, translated from the Python sources, of:
  - the todo repository and the manage_todo_list tool-call handler
    (app/database/todo_repository.py, app/agent/core.py);
  - the importance scorer and summary compressor (app/memory/compressor.py);
  - the in-memory priority queue backend, including the CPython heapq
    push and pop procedures it delegates to (app/messaging/queue.py);
  - the tool executor (app/agent/executor.py);
  - the sandbox security checker (app/sandbox/security.py);
  - the context window (app/memory/context.py);
  - the title post-processing of generate_title (app/agent/core.py).

Machine floats in the sources are modelled with rationals, Python ints
with Int or Nat, uuid4 draws with a counter threaded through the state,
and asynchronous effects (database commits, LLM calls, docker) with pure
state passing; every definition is executable.
-/

namespace Py

/-- Drop characters satisfying p from both ends of a character list, as
Python str.strip does. -/
def stripL (p : Char → Bool) (l : List Char) : List Char :=
  ((l.dropWhile p).reverse.dropWhile p).reverse

/-- Python str.strip restricted to a character predicate. -/
def pyStrip (p : Char → Bool) (s : String) : String :=
  String.mk (stripL p s.toList)

/-- Python str.lower, modelled characterwise. -/
def pyLower (s : String) : String :=
  String.mk (s.toList.map Char.toLower)

/-- Python truthiness filter for an optional string: None and the empty
string are falsy. -/
def truthy : Option String → Option String
  | some s => if s = "" then none else some s
  | none => none

end Py

namespace Todo

/-- Status of a todo item, from app.models.schemas.TodoItemStatus. -/
inductive ItemStatus where
  | pending
  | running
  | completed
deriving DecidableEq, Repr, Inhabited

/-- A stored todo item row, from app.database.models.TodoItemModel.
Item ids stand in for the uuid strings of the source. -/
structure StoredItem where
  id : Nat
  label : String
  status : ItemStatus
  orderIndex : Int
deriving DecidableEq, Repr, Inhabited

/-- A stored todo list row, from app.database.models.TodoListModel. -/
structure StoredList where
  id : Nat
  title : String
  revision : Nat
  listStatus : String
  items : List StoredItem
deriving DecidableEq, Repr, Inhabited

/-- Repository state for a single session: the at-most-one stored list,
plus a counter standing in for the uuid4 generator. -/
structure Store where
  list? : Option StoredList
  nextId : Nat
deriving DecidableEq, Repr, Inhabited

/-- An input item as passed to the repository, from
app.models.schemas.TodoItem; id? = none models a falsy id, for which the
repository draws a fresh uuid. -/
structure InItem where
  id? : Option Nat
  label : String
  status : ItemStatus
  orderIndex : Int
deriving DecidableEq, Repr, Inhabited

/-- Draw a fresh uuid from the counter. -/
def freshId (st : Store) : Nat × Store :=
  (st.nextId, { st with nextId := st.nextId + 1 })

/-- Build the TodoItemModel rows of create_or_replace: enumerate the
items, keeping a truthy id and order_index and substituting uuid4 and
idx + 1 otherwise (Python `item.order_index or idx + 1`). -/
def buildItems : Nat → Store → List InItem → List StoredItem × Store
  | _, st, [] => ([], st)
  | idx, st, it :: rest =>
    let idPair :=
      match it.id? with
      | some n => (n, st)
      | none => freshId st
    let oi : Int := if it.orderIndex = 0 then (idx : Int) + 1 else it.orderIndex
    let tailPair := buildItems (idx + 1) idPair.2 rest
    (⟨idPair.1, it.label, it.status, oi⟩ :: tailPair.1, tailPair.2)

/-- TodoRepository.create_or_replace: delete any existing list for the
session and insert a new one with revision 1 and status active. -/
def createOrReplace (st : Store) (title : String) (items : List InItem) :
    StoredList × Store :=
  let (lid, st1) := freshId st
  let (its, st2) := buildItems 0 st1 items
  let tl : StoredList := ⟨lid, title, 1, "active", its⟩
  (tl, { st2 with list? := some tl })

/-- Set the status of the first item carrying the given id, as the
for/break loop of set_item_status does. -/
def setFirst (itemId : Nat) (status : ItemStatus) :
    List StoredItem → List StoredItem
  | [] => []
  | i :: rest =>
    if i.id = itemId then { i with status := status } :: rest
    else i :: setFirst itemId status rest

/-- TodoRepository.set_item_status: set one item and bump revision;
none models the ValueError raised when the list or the item is missing. -/
def setItemStatus (st : Store) (itemId : Nat) (status : ItemStatus) :
    Option (StoredList × Store) :=
  match st.list? with
  | none => none
  | some tl =>
    if tl.items.any (fun i => i.id = itemId) then
      let tl' : StoredList :=
        { tl with items := setFirst itemId status tl.items,
                  revision := tl.revision + 1 }
      some (tl', { st with list? := some tl' })
    else none

/-- Stable insertion by order_index, placing an element after the
strictly smaller keys so that equal keys keep their original order,
matching Python sorted. -/
def insByIndex (x : StoredItem) : List StoredItem → List StoredItem
  | [] => [x]
  | y :: ys =>
    if y.orderIndex < x.orderIndex then y :: insByIndex x ys
    else x :: y :: ys

/-- Stable sort by order_index, matching Python sorted with that key. -/
def sortByIndex : List StoredItem → List StoredItem
  | [] => []
  | x :: xs => insByIndex x (sortByIndex xs)

/-- TodoRepository.advance_step: complete every running item, promote
the first pending item in order_index order, bump revision once.  Item
ids are unique (they are uuid draws), so targeting the promoted item by
id reproduces the aliased in-place mutation of the source. -/
def advanceStep (st : Store) : Option (StoredList × Store) :=
  match st.list? with
  | none => none
  | some tl =>
    let sorted := sortByIndex tl.items
    let nextPendingId? : Option Nat :=
      (sorted.find? (fun i => decide (i.status = ItemStatus.pending))).map (·.id)
    let items := tl.items.map (fun i =>
      if i.status = ItemStatus.running then { i with status := ItemStatus.completed }
      else if nextPendingId? = some i.id ∧ i.status = ItemStatus.pending then
        { i with status := ItemStatus.running }
      else i)
    let tl' : StoredList := { tl with items := items, revision := tl.revision + 1 }
    some (tl', { st with list? := some tl' })

/-- TodoRepository.complete_all: every item completed, list completed,
revision bumped once. -/
def completeAll (st : Store) : Option (StoredList × Store) :=
  match st.list? with
  | none => none
  | some tl =>
    let tl' : StoredList :=
      { tl with items := tl.items.map (fun i => { i with status := ItemStatus.completed }),
                listStatus := "completed",
                revision := tl.revision + 1 }
    some (tl', { st with list? := some tl' })

/-- The snapshot returned to callers, from TodoRepository._to_schema:
items sorted by order_index (updated_at, a wall-clock value, omitted). -/
structure Snapshot where
  id : Nat
  title : String
  revision : Nat
  items : List StoredItem
deriving DecidableEq, Repr, Inhabited

/-- TodoRepository._to_schema. -/
def toSchema (tl : StoredList) : Snapshot :=
  ⟨tl.id, tl.title, tl.revision, sortByIndex tl.items⟩

end Todo

namespace Todo

/-- A raw item as supplied by the LLM in manage_todo_list arguments:
either a plain string or a dict; the multi-key label extraction of
ChatAgent._extract_label is abstracted into the label field, while the
status and state keys are kept (absent keys are none). -/
inductive RawItem where
  | strIt (s : String)
  | dictIt (label : String) (status? : Option String) (state? : Option String)
deriving DecidableEq, Repr, Inhabited

/-- The fixed status-alias map of ChatAgent._normalise_status. -/
def statusMap : List (String × ItemStatus) :=
  [("pending", ItemStatus.pending), ("not-started", ItemStatus.pending),
   ("not_started", ItemStatus.pending), ("todo", ItemStatus.pending),
   ("running", ItemStatus.running), ("in-progress", ItemStatus.running),
   ("in_progress", ItemStatus.running), ("active", ItemStatus.running),
   ("current", ItemStatus.running),
   ("completed", ItemStatus.completed), ("done", ItemStatus.completed),
   ("finished", ItemStatus.completed), ("complete", ItemStatus.completed)]

/-- ChatAgent._normalise_status: lower, strip, look up, default pending. -/
def normaliseStatus (raw : String) : ItemStatus :=
  let key := Py.pyStrip Char.isWhitespace (Py.pyLower raw)
  ((statusMap.find? (fun p => p.1 == key)).map (·.2)).getD ItemStatus.pending

/-- The label taken by ChatAgent._extract_label. -/
def labelOf : RawItem → String
  | RawItem.strIt s => s
  | RawItem.dictIt l _ _ => l

/-- The raw status string: Python `(it.get("status") or it.get("state")
or "pending") if isinstance(it, dict) else "pending"`. -/
def rawStatusOf : RawItem → String
  | RawItem.strIt _ => "pending"
  | RawItem.dictIt _ st sta =>
    ((Py.truthy st).orElse (fun _ => Py.truthy sta)).getD "pending"

/-- The TodoItem list built by ChatAgent._handle_todo_tool_call:
normalised status and order_index = idx + 1; ids are left to the schema
default uuid (modelled as id? = none, drawn later from the store). -/
def buildTodoItems (raw : List RawItem) : List InItem :=
  raw.enum.map (fun p =>
    ⟨none, labelOf p.2, normaliseStatus (rawStatusOf p.2), (p.1 : Int) + 1⟩)

/-- Promote the first pending item to running, as the for/break loop of
the handler does. -/
def promoteFirstPending : List InItem → List InItem
  | [] => []
  | i :: rest =>
    if i.status = ItemStatus.pending then
      { i with status := ItemStatus.running } :: rest
    else i :: promoteFirstPending rest

/-- The promotion guard of the handler: only when the list is nonempty
and has no running item at all. -/
def enforceRunning (items : List InItem) : List InItem :=
  if items ≠ [] ∧ ¬ items.any (fun i => decide (i.status = ItemStatus.running)) then
    promoteFirstPending items
  else items

/-- ChatAgent._handle_todo_tool_call after successful argument parsing,
composed with TodoService.create_or_replace_with_items and the
repository write: returns the committed snapshot and the new store. -/
def handleTodoToolCall (st : Store) (title : String) (raw : List RawItem) :
    Snapshot × Store :=
  let items := enforceRunning (buildTodoItems raw)
  let (tl, st') := createOrReplace st title items
  (toSchema tl, st')

/-- Count of running items among stored items. -/
def countRunning (l : List StoredItem) : Nat :=
  l.countP (fun i => decide (i.status = ItemStatus.running))

/-- Count of running items among input items. -/
def countRunningIn (l : List InItem) : Nat :=
  l.countP (fun i => decide (i.status = ItemStatus.running))

/-- Count of pending items among input items. -/
def countPendingIn (l : List InItem) : Nat :=
  l.countP (fun i => decide (i.status = ItemStatus.pending))

/-- Concrete run for the revision counterexample: create, then bump via
set_item_status, then create again. -/
def c1s0 : Store := ⟨none, 0⟩

/-- First mutation: create a one-item list (revision 1). -/
def c1step1 : StoredList × Store :=
  createOrReplace c1s0 "t" [⟨none, "a", ItemStatus.pending, 0⟩]

/-- Second mutation: set the item (id 1) to completed (revision 2). -/
def c1step2 : Option (StoredList × Store) :=
  setItemStatus c1step1.2 1 ItemStatus.completed

/-- Third mutation: create_or_replace again (revision reset to 1). -/
def c1step3 : StoredList × Store :=
  createOrReplace (c1step2.getD c1step1).2 "t" [⟨none, "a", ItemStatus.pending, 0⟩]

/-- Raw tool-call items supplying two running items, for the
at-most-one-running counterexample. -/
def c2raw : List RawItem :=
  [RawItem.dictIt "a" (some "running") none,
   RawItem.dictIt "b" (some "running") none]

end Todo

namespace Compressor

/-- Message role, from app.models.schemas.MessageRole. -/
inductive Role where
  | system
  | user
  | assistant
  | tool
deriving DecidableEq, Repr, Inhabited

/-- A message as seen by the compressor: role, pydantic importance_score
(a float in [0,1], default 1.0, modelled as a rational), plain-string
content (the content-block variant joins its text blocks; a plain string
is kept as is, which is the case exercised here), truthiness of
tool_calls, and the stored token_count. -/
structure CMsg where
  role : Role
  importanceScore : Rat
  content : String
  hasToolCalls : Bool
  tokenCount : Int
deriving DecidableEq, Repr, Inhabited

/-- Character-list prefix test used by the substring check. -/
def startsWithL : List Char → List Char → Bool
  | [], _ => true
  | _ :: _, [] => false
  | a :: as, b :: bs => a == b && startsWithL as bs

/-- Substring test on character lists, modelling Python `needle in s`. -/
def hasSub (needle : List Char) : List Char → Bool
  | [] => needle.isEmpty
  | l@(_ :: rest) => startsWithL needle l || hasSub needle rest

/-- The fixed keyword lexicon of ImportanceScorer, in dict order. -/
def keywordWeights : List (String × Rat) :=
  [("error", 3/10), ("important", 1/5), ("critical", 3/10),
   ("remember", 1/5), ("key", 3/20), ("decision", 1/4),
   ("conclusion", 1/5), ("result", 3/20)]

/-- Keyword analysis of ImportanceScorer.score: sum the weights of the
lexicon keywords occurring in the lowercased content. -/
def keywordScore (content : String) : Rat :=
  let lower := content.toList.map Char.toLower
  keywordWeights.foldl
    (fun acc p => if hasSub p.1.toList lower then acc + p.2 else acc) 0

/-- The role-weight table of ImportanceScorer.score (the .get default
0.5 is unreachable: all four roles are in the table). -/
def roleWeight : Role → Rat
  | Role.system => 1
  | Role.user => 4/5
  | Role.assistant => 3/5
  | Role.tool => 1/2

/-- ImportanceScorer.score.  Callers always pass position < total, so
the Python exponent total - position - 1 is a natural number and Nat
subtraction is faithful. -/
def score (decay : Rat) (m : CMsg) (position total : Nat) : Rat :=
  let baseScore := m.importanceScore
  let positionFactor := decay ^ (total - position - 1)
  let roleFactor := roleWeight m.role
  let keywordSc := keywordScore m.content
  let toolBonus : Rat := if m.hasToolCalls then 1/5 else 0
  min 1 (baseScore * (3/10) + positionFactor * (3/10) + roleFactor * (1/5)
    + min keywordSc (3/10) * (3/20) + toolBonus)

/-- The keep decision of SummaryCompressor.compress for the message at
index i: system role, or among the last 3 indices, or score at least
0.7.  The scorer is constructed with the default decay factor 0.95. -/
def keepB (msgs : List CMsg) (i : Nat) (m : CMsg) : Bool :=
  (m.role == Role.system) || decide (msgs.length - 3 ≤ i)
    || decide ((7 : Rat)/10 ≤ score (19/20) m i msgs.length)

/-- SummaryCompressor.compress, returning (retained messages, messages
handed to the summarizer).  Fewer than 3 messages are returned as they
are.  keep_indices is collected in increasing index order, so the
sorted(keep_indices) lookup of the source is the filtered range; the
summarizer input is collected in iteration order. -/
def compress (msgs : List CMsg) : List CMsg × List CMsg :=
  if msgs.length < 3 then (msgs, [])
  else
    let keepIdx := (List.range msgs.length).filter
      (fun i => keepB msgs i (msgs.getD i default))
    let retained := keepIdx.map (fun i => msgs.getD i default)
    let toSum := (msgs.enum.filter (fun p => ¬ keepB msgs p.1 p.2)).map Prod.snd
    (retained, toSum)

/-- The indices of the last 3 non-system messages, following the words
of the specification (not the code). -/
def lastThreeNonSysIdx (msgs : List CMsg) : List Nat :=
  let ns := (msgs.enum.filter (fun p => ¬ p.2.role == Role.system)).map Prod.fst
  ns.drop (ns.length - 3)

/-- The retained set as the specification words it: every system
message, the last 3 non-system messages, and every message scoring at
least 0.7, in original order. -/
def claimRetained (msgs : List CMsg) : List CMsg :=
  (msgs.enum.filter (fun p =>
    p.2.role == Role.system || decide (p.1 ∈ lastThreeNonSysIdx msgs)
      || decide ((7 : Rat)/10 ≤ score (19/20) p.2 p.1 msgs.length))).map Prod.snd

/-- A user message with explicit base importance 0 and empty content. -/
def cmUser : CMsg := ⟨Role.user, 0, "", false, 10⟩

/-- A system message. -/
def cmSys : CMsg := ⟨Role.system, 0, "", false, 10⟩

/-- Counterexample message list: a system message sits among the last 3
positions, so the code keeps indices 3..5 while the specification words
keep index 2 as well. -/
def c3msgs : List CMsg := [cmUser, cmUser, cmUser, cmSys, cmUser, cmUser]

end Compressor

namespace PQueue

/-- A queued message as compared by QueuedMessage.__lt__: only the
priority takes part in the comparison; the tag records enqueue order
for stating FIFO and plays no role in the code. -/
structure QMsg where
  priority : Int
  tag : Nat
deriving DecidableEq, Repr, Inhabited

/-- QueuedMessage.__lt__: a < b iff a.priority > b.priority. -/
def qlt (a b : QMsg) : Bool := decide (b.priority < a.priority)

/-- CPython heapq._siftdown.  The loop strictly decreases pos (the
parent index (pos-1)/2 is smaller), so fuel pos + 1 never runs out and
the fuel-0 branch is unreachable. -/
def siftdownGo (lt : α → α → Bool) (newitem : α) :
    Nat → List α → Nat → Nat → List α
  | 0, heap, _, pos => heap.set pos newitem
  | fuel + 1, heap, startpos, pos =>
    if startpos < pos then
      let parentpos := (pos - 1) / 2
      let parent := heap.getD parentpos newitem
      if lt newitem parent then
        siftdownGo lt newitem fuel (heap.set pos parent) startpos parentpos
      else heap.set pos newitem
    else heap.set pos newitem

/-- CPython heapq._siftdown with sufficient fuel. -/
def siftdownA (lt : α → α → Bool) (newitem : α) (heap : List α)
    (startpos pos : Nat) : List α :=
  siftdownGo lt newitem (pos + 1) heap startpos pos

/-- CPython heapq._siftup main loop: walk the smaller child down to a
leaf, returning the heap and the final position.  Each step moves pos to
a child index (at least pos + 1) while the heap length is unchanged, so
fuel length + 1 never runs out. -/
def siftupGo (lt : α → α → Bool) (newitem : α) :
    Nat → List α → Nat → List α × Nat
  | 0, heap, pos => (heap, pos)
  | fuel + 1, heap, pos =>
    let endpos := heap.length
    let childpos := 2 * pos + 1
    if childpos < endpos then
      let rightpos := childpos + 1
      let cp :=
        if decide (rightpos < endpos)
            && ! lt (heap.getD childpos newitem) (heap.getD rightpos newitem) then
          rightpos
        else childpos
      siftupGo lt newitem fuel (heap.set pos (heap.getD cp newitem)) cp
    else (heap, pos)

/-- CPython heapq._siftup: run the loop, place newitem at the final
leaf, then sift it down towards the original position. -/
def siftup (lt : α → α → Bool) [Inhabited α] (heap : List α) (pos : Nat) :
    List α :=
  let newitem := heap.getD pos default
  let hp := siftupGo lt newitem (heap.length + 1) heap pos
  siftdownA lt newitem (hp.1.set hp.2 newitem) pos hp.2

/-- CPython heapq.heappush. -/
def heappush (lt : α → α → Bool) (heap : List α) (item : α) : List α :=
  siftdownA lt item (heap ++ [item]) 0 heap.length

/-- CPython heapq.heappop; none on the empty heap (asyncio would block
there). -/
def heappop (lt : α → α → Bool) [Inhabited α] (heap : List α) :
    Option (α × List α) :=
  match heap with
  | [] => none
  | x :: _ =>
    let lastelt := heap.getLastD default
    let rest := heap.dropLast
    if rest.isEmpty then some (lastelt, [])
    else some (x, siftup lt (rest.set 0 lastelt) 0)

/-- Dequeue n messages in sequence from the heap. -/
def drainGo (lt : α → α → Bool) [Inhabited α] : List α → Nat → List α
  | _, 0 => []
  | heap, n + 1 =>
    match heappop lt heap with
    | none => []
    | some (x, h2) => x :: drainGo lt h2 n

/-- InMemoryQueueBackend: enqueue every message in order into the
asyncio.PriorityQueue (heapq with QueuedMessage.__lt__), then let a
single consumer dequeue them all. -/
def drainAll (msgs : List QMsg) : List QMsg :=
  drainGo qlt (msgs.foldl (heappush qlt) []) msgs.length

/-- Four messages of equal priority (MessagePriority.NORMAL = 3) in
enqueue order 0, 1, 2, 3. -/
def c4msgs : List QMsg := [⟨3, 0⟩, ⟨3, 1⟩, ⟨3, 2⟩, ⟨3, 3⟩]

end PQueue

namespace ToolExec

/-- A tool call as received from the LLM; each .get falls back to a
default, so absent keys are modelled with none. -/
structure ToolCallIn where
  id? : Option String
  name? : Option String
  args? : Option String
deriving DecidableEq, Repr, Inhabited

/-- The outcome of running a registered tool within the timeout:
a returned string, a raised exception (stringified), or a timeout. -/
inductive Outcome where
  | ok (s : String)
  | raised (e : String)
  | timedOut
deriving DecidableEq, Repr, Inhabited

/-- ToolResult with the claim-relevant fields (execution_time, a
wall-clock float, omitted). -/
structure ToolResult where
  toolCallId : String
  name : String
  success : Bool
  content : String
  error? : Option String
deriving DecidableEq, Repr, Inhabited

/-- ToolExecutor._execute_single, parametrised by the JSON-validity
predicate, the registry (a name to tool-behaviour map) and the rendered
timeout message f-string. -/
def execSingle (parseOk : String → Bool)
    (registry : String → Option (String → Outcome)) (timeoutMsg : String)
    (tc : ToolCallIn) : ToolResult :=
  let tid := tc.id?.getD ""
  let name := tc.name?.getD ""
  let args := tc.args?.getD "\x7b\x7d"
  if parseOk args = false then
    ⟨tid, name, false, "", some "Invalid JSON arguments"⟩
  else
    match registry name with
    | none => ⟨tid, name, false, "", some ("Tool \x27" ++ name ++ "\x27 not found")⟩
    | some f =>
      match f args with
      | Outcome.ok s => ⟨tid, name, true, s, none⟩
      | Outcome.raised e => ⟨tid, name, false, "", some e⟩
      | Outcome.timedOut => ⟨tid, name, false, "", some timeoutMsg⟩

/-- ToolExecutor.execute: one result per call, in input order; the
gather(return_exceptions=True) conversion branch is unreachable because
_execute_single already materialises every failure. -/
def execute (parseOk : String → Bool)
    (registry : String → Option (String → Outcome)) (timeoutMsg : String)
    (calls : List ToolCallIn) : List ToolResult :=
  calls.map (execSingle parseOk registry timeoutMsg)

end ToolExec

namespace Sandbox

/-- The func expression of an ast.Call, as far as
SecurityChecker._resolve_call_name inspects it: a bare name, an
attribute access chain, or anything else. -/
inductive PExpr where
  | nameE (id : String)
  | attrE (value : PExpr) (attr : String)
  | otherE
deriving DecidableEq, Repr, Inhabited

/- A Python AST node, as far as SecurityChecker.validate inspects it:
Import (alias dotted names), ImportFrom (module, none for a relative
from-dot import), Call (its func expression), and any other node with
its child statements (Module, FunctionDef, If, ...).  Child sequences
are a mutually inductive forest so that recursion stays structural. -/
mutual

inductive PNode where
  | imp (names : List String)
  | impFrom (module? : Option String)
  | call (func : PExpr)
  | block (children : PForest)

inductive PForest where
  | fnil
  | fcons (n : PNode) (f : PForest)

end

instance : Inhabited PNode := ⟨PNode.imp []⟩

/-- The plain list of a forest. -/
def PForest.toList : PForest → List PNode
  | PForest.fnil => []
  | PForest.fcons n f => n :: PForest.toList f

/-- Build a forest from a plain list. -/
def PForest.ofList : List PNode → PForest
  | [] => PForest.fnil
  | n :: rest => PForest.fcons n (PForest.ofList rest)

/- Number of nodes of a node, respectively a forest. -/
mutual

def nodeCount : PNode → Nat
  | PNode.imp _ => 1
  | PNode.impFrom _ => 1
  | PNode.call _ => 1
  | PNode.block f => 1 + forestCount f

def forestCount : PForest → Nat
  | PForest.fnil => 0
  | PForest.fcons n f => nodeCount n + forestCount f

end

/-- The children a node contributes to the ast.walk queue. -/
def childrenOf : PNode → List PNode
  | PNode.block cs => cs.toList
  | _ => []

/-- Breadth-first traversal queue of ast.walk.  Every step yields one
node and enqueues its children; the total number of yields is the node
count of the tree, so fuel nodeCount + 1 never runs out and the fuel-0
branch is unreachable. -/
def walkGo : Nat → List PNode → List PNode
  | 0, _ => []
  | _ + 1, [] => []
  | fuel + 1, n :: rest => n :: walkGo fuel (rest ++ childrenOf n)

/-- ast.walk of a node (the parsed Module), in breadth-first order. -/
def walk (t : PNode) : List PNode :=
  walkGo (nodeCount t + 1) [t]

/-- The blocked module set of app.sandbox.security. -/
def blockedModules : List String :=
  ["ctypes", "multiprocessing", "signal", "_thread"]

/-- The warn-only dangerous call patterns of app.sandbox.security. -/
def warnPatterns : List String :=
  ["os.system", "os.popen", "os.exec", "os.execv", "os.execve", "os.fork",
   "subprocess.call", "subprocess.run", "subprocess.Popen", "shutil.rmtree",
   "__import__", "eval", "exec", "compile"]

/-- Python name.split(".")[0]: the characters before the first dot. -/
def topModule (s : String) : String :=
  String.mk (s.toList.takeWhile (fun c => c != '.'))

/-- SecurityCheckResult, from app.sandbox.models. -/
structure CheckResult where
  passed : Bool
  blockedReason : Option String
  warnings : List String
deriving DecidableEq, Repr, Inhabited

/-- The failure result built for a blocked import of module m. -/
def blockedRes (m : String) : CheckResult :=
  ⟨false, some ("Blocked module: " ++ m), []⟩

/-- SecurityChecker._check_imports on one node. -/
def checkImports : PNode → Option CheckResult
  | PNode.imp names =>
    (names.find? (fun nm => blockedModules.contains (topModule nm))).map blockedRes
  | PNode.impFrom (some m) =>
    if blockedModules.contains (topModule m) then some (blockedRes m) else none
  | _ => none

/-- SecurityChecker._resolve_call_name attribute-chain accumulator. -/
def resolveParts : PExpr → List String → List String
  | PExpr.attrE v a, parts => resolveParts v (a :: parts)
  | PExpr.nameE id, parts => id :: parts
  | PExpr.otherE, parts => parts

/-- SecurityChecker._resolve_call_name. -/
def resolveCallName (f : PExpr) : String :=
  match f with
  | PExpr.nameE id => id
  | _ => String.intercalate "." (resolveParts f [])

/-- SecurityChecker._check_calls on one node. -/
def checkCalls : PNode → Option String
  | PNode.call f =>
    let n := resolveCallName f
    if warnPatterns.contains n then some ("Potentially dangerous call: " ++ n)
    else none
  | _ => none

/-- Whether a node is an import or from-import whose top-level module is
blocked (the condition under which _check_imports fires). -/
def hasBlockedImp : PNode → Bool
  | PNode.imp names => names.any (fun nm => blockedModules.contains (topModule nm))
  | PNode.impFrom (some m) => blockedModules.contains (topModule m)
  | _ => false

/-- SecurityChecker.validate on the outcome of ast.parse: a syntax error
(line and message) blocks; otherwise the first blocked import found in
walk order blocks, discarding any warnings collected so far (the failure
result carries none); otherwise pass with the call warnings. -/
def validate (parsed : Except (Int × String) PNode) : CheckResult :=
  match parsed with
  | Except.error (lineno, msg) =>
    ⟨false, some ("Syntax error at line " ++ toString lineno ++ ": " ++ msg), []⟩
  | Except.ok t =>
    let nodes := walk t
    match nodes.findSome? checkImports with
    | some r => r
    | none => ⟨true, none, nodes.filterMap checkCalls⟩

/-- Witness program: a module whose single statement is import ctypes. -/
def c7tree : PNode := PNode.block (PForest.ofList [PNode.imp ["ctypes"]])

/-- Witness program with a dangerous call os.system and no blocked
import. -/
def c7callTree : PNode :=
  PNode.block (PForest.ofList [PNode.call (PExpr.attrE (PExpr.nameE "os") "system")])

end Sandbox

namespace Ctx

/-- A message as stored in the window: its id (standing in for the
uuid) and the token_count field mutated by add_message.  The token
counter is modelled as a function of the id (to_openai_format does not
read token_count). -/
structure CWMsg where
  id : Nat
  tokenCount : Int
deriving DecidableEq, Repr, Inhabited

/-- Storage band of a segment. -/
inductive Layer where
  | hot
  | warm
  | cold
deriving DecidableEq, Repr, Inhabited

/-- A ContextSegment: messages, token_count, priority, is_locked, and
the metadata summary entry (set only by move_to_cold). -/
structure Seg where
  msgs : List CWMsg
  tokenCount : Int
  priority : Int
  isLocked : Bool
  summary : Option String
deriving DecidableEq, Repr, Inhabited

/-- An entry of the message index: (layer, segment index, message
index). -/
abbrev IndexEntry := Layer × Nat × Nat

/-- The _message_index dict, as an insertion-ordered association list
with Python dict update semantics. -/
abbrev Dict := List (Nat × IndexEntry)

/-- Python dict set: replace in place when present, else append. -/
def dictSet : Dict → Nat → IndexEntry → Dict
  | [], k, v => [(k, v)]
  | (k', v') :: rest, k, v =>
    if k' = k then (k, v) :: rest else (k', v') :: dictSet rest k v

/-- Python dict lookup. -/
def dictFind (d : Dict) (k : Nat) : Option IndexEntry :=
  (d.find? (fun p => p.1 == k)).map (·.2)

/-- Python dict del (the key occurs at most once). -/
def dictDel : Dict → Nat → Dict
  | [], _ => []
  | (k', v') :: rest, k =>
    if k' = k then rest else (k', v') :: dictDel rest k

/-- ContextWindow state. -/
structure CW where
  maxTokens : Int
  reservedTokens : Int
  hot : List Seg
  warm : List Seg
  cold : List Seg
  currentTokens : Int
  index : Dict
deriving DecidableEq, Repr, Inhabited

/-- The window created by ContextWindow.__init__. -/
def initCW (maxT resT : Int) : CW :=
  ⟨maxT, resT, [], [], [], 0, []⟩

/-- available_tokens, fixed at construction. -/
def availableTokens (s : CW) : Int := s.maxTokens - s.reservedTokens

/-- remaining_tokens. -/
def remainingTokens (s : CW) : Int := availableTokens s - s.currentTokens

/-- usage_ratio (the division by zero of an available_tokens = 0 window
raises in Python before any mutation; rational division returns 0 and
likewise leaves the state unchanged through the optimize guard). -/
def usageR (s : CW) : Rat := (s.currentTokens : Rat) / (availableTokens s : Rat)

/-- Python int() truncation towards zero on a rational. -/
def pyInt (q : Rat) : Int := if q < 0 then -((-q).floor) else q.floor

/-- Re-register every message of a segment under a new layer and
segment index, in message order. -/
def reindexSeg (d : Dict) (layer : Layer) (segIdx : Nat) (msgs : List CWMsg) :
    Dict :=
  msgs.enum.foldl (fun acc p => dictSet acc p.2.id (layer, segIdx, p.1)) d

/-- ContextWindow._should_create_new_segment. -/
def shouldCreateNew (s : CW) : Bool :=
  match s.hot.getLast? with
  | none => true
  | some last => decide (last.msgs.length ≥ 10) || last.isLocked

/-- ContextWindow.add_message, parametrised by the token counter tokOf
(count_message_tokens of the message's LLM form).  Returns the new
state and the success flag; on overflow the state is returned untouched
(only the message object's token_count was set, and the message is not
part of the window). -/
def addMessage (tokOf : Nat → Int) (s : CW) (m : CWMsg) (priority : Int)
    (lock : Bool) : CW × Bool :=
  let tokens := tokOf m.id
  let m' : CWMsg := { m with tokenCount := tokens }
  if tokens > remainingTokens s then (s, false)
  else
    if s.hot.isEmpty || shouldCreateNew s then
      let seg : Seg := ⟨[m'], tokens, priority, lock, none⟩
      let hot' := s.hot ++ [seg]
      let index' := dictSet s.index m.id (Layer.hot, hot'.length - 1, 0)
      ({ s with hot := hot', index := index',
                currentTokens := s.currentTokens + tokens }, true)
    else
      let last := s.hot.getLastD default
      let last' : Seg := { last with msgs := last.msgs ++ [m'],
                                     tokenCount := last.tokenCount + tokens }
      let hot' := s.hot.dropLast ++ [last']
      let index' := dictSet s.index m.id
        (Layer.hot, s.hot.length - 1, last'.msgs.length - 1)
      ({ s with hot := hot', index := index',
                currentTokens := s.currentTokens + tokens }, true)

/-- ContextWindow.add_messages: stop at the first failure. -/
def addMessagesGo (tokOf : Nat → Int) (priority : Int) (lock : Bool) :
    CW → List CWMsg → Nat → CW × Nat
  | s, [], n => (s, n)
  | s, m :: rest, n =>
    let s' := (addMessage tokOf s m priority lock).1
    let ok := (addMessage tokOf s m priority lock).2
    if ok then addMessagesGo tokOf priority lock s' rest (n + 1) else (s', n)

/-- ContextWindow.add_messages. -/
def addMessages (tokOf : Nat → Int) (s : CW) (ms : List CWMsg)
    (priority : Int) (lock : Bool) : CW × Nat :=
  addMessagesGo tokOf priority lock s ms 0

/-- ContextWindow.move_to_warm. -/
def moveToWarm (s : CW) (i : Nat) : CW × Bool :=
  if i ≥ s.hot.length then (s, false)
  else
    let seg := s.hot.getD i default
    let hot' := s.hot.eraseIdx i
    let warm' := s.warm ++ [seg]
    let index' := reindexSeg s.index Layer.warm (warm'.length - 1) seg.msgs
    ({ s with hot := hot', warm := warm', index := index' }, true)

/-- ContextWindow.move_to_cold, parametrised by the token counter tokS
for summary strings; the summary branch runs only when the summary is
truthy (a nonempty string). -/
def moveToCold (tokS : String → Int) (s : CW) (i : Nat)
    (summary : Option String) : CW × Bool :=
  if i ≥ s.warm.length then (s, false)
  else
    let seg := s.warm.getD i default
    let warm' := s.warm.eraseIdx i
    let adjust :=
      match summary with
      | some str =>
        if str = "" then none
        else some (str, tokS str + 20)
      | none => none
    let seg' :=
      match adjust with
      | some (str, newTok) => { seg with summary := some str, tokenCount := newTok }
      | none => seg
    let cur' :=
      match adjust with
      | some (_, newTok) => s.currentTokens - (seg.tokenCount - newTok)
      | none => s.currentTokens
    let cold' := s.cold ++ [seg']
    let index' := reindexSeg s.index Layer.cold (cold'.length - 1) seg'.msgs
    ({ s with warm := warm', cold := cold', currentTokens := cur',
              index := index' }, true)

/-- The in-band removal core of remove_message: bounds checks, pop the
message, debit the segment. -/
def removeCore (segs : List Seg) (segIdx msgIdx : Nat) :
    Option (List Seg × CWMsg) :=
  if segIdx ≥ segs.length then none
  else
    let seg := segs.getD segIdx default
    if msgIdx ≥ seg.msgs.length then none
    else
      let m := seg.msgs.getD msgIdx default
      let seg' : Seg := { seg with msgs := seg.msgs.eraseIdx msgIdx,
                                   tokenCount := seg.tokenCount - m.tokenCount }
      some (segs.set segIdx seg', m)

/-- Reindex the tail of a segment after a removal, as the enumerate
loop with start = msgIdx does. -/
def reindexTail (d : Dict) (layer : Layer) (segIdx msgIdx : Nat)
    (msgs : List CWMsg) : Dict :=
  (msgs.drop msgIdx).enum.foldl
    (fun acc p => dictSet acc p.2.id (layer, segIdx, msgIdx + p.1)) d

/-- ContextWindow.remove_message. -/
def removeMessage (s : CW) (mid : Nat) : CW × Bool :=
  match dictFind s.index mid with
  | none => (s, false)
  | some (layer, segIdx, msgIdx) =>
    match layer with
    | Layer.cold => (s, false)
    | Layer.hot =>
      match removeCore s.hot segIdx msgIdx with
      | none => (s, false)
      | some (hot', m) =>
        let index1 := dictDel s.index mid
        let seg' := hot'.getD segIdx default
        let index2 := reindexTail index1 Layer.hot segIdx msgIdx seg'.msgs
        ({ s with hot := hot', currentTokens := s.currentTokens - m.tokenCount,
                  index := index2 }, true)
    | Layer.warm =>
      match removeCore s.warm segIdx msgIdx with
      | none => (s, false)
      | some (warm', m) =>
        let index1 := dictDel s.index mid
        let seg' := warm'.getD segIdx default
        let index2 := reindexTail index1 Layer.warm segIdx msgIdx seg'.msgs
        ({ s with warm := warm', currentTokens := s.currentTokens - m.tokenCount,
                  index := index2 }, true)

/-- Rebuild the index from the kept hot segments, as clear does. -/
def rebuildIndex (hot : List Seg) : Dict :=
  hot.enum.foldl
    (fun acc p => (p.2.msgs.enum.foldl
      (fun acc2 q => dictSet acc2 q.2.id (Layer.hot, p.1, q.1)) acc)) []

/-- ContextWindow.clear. -/
def clearCW (s : CW) (keepLocked : Bool) : CW :=
  let hot' := if keepLocked then s.hot.filter (·.isLocked) else []
  { s with hot := hot', warm := [], cold := [],
           currentTokens := ((hot'.map (·.tokenCount)).sum),
           index := rebuildIndex hot' }

/-- The placeholder summary used by optimize for warm segments. -/
def placeholderSummary : String := "[已压缩的历史消息]"

/-- The warm-to-cold while loop of optimize.  The freed counter reads
segment.token_count after move_to_cold rewrote it to the summary cost
(the Python loop reads the aliased object).  Each pass pops warm index
0, so fuel warm.length is exact and the fuel-0 branch coincides with
the loop exit. -/
def optimizeWarmGo (tokS : String → Int) :
    Nat → CW → Int → Int → CW × Int
  | 0, s, freed, _ => (s, freed)
  | fuel + 1, s, freed, toFree =>
    if s.warm ≠ [] ∧ freed < toFree then
      let s' := (moveToCold tokS s 0 (some placeholderSummary)).1
      optimizeWarmGo tokS fuel s' (freed + (tokS placeholderSummary + 20)) toFree
    else (s, freed)

/-- The hot-to-warm while loop of optimize: freed never changes there,
so the loop demotes non-locked hot segments until none is left or the
break fires.  Each pass removes one hot segment, so fuel hot.length is
exact. -/
def optimizeHotGo : Nat → CW → Int → Int → CW
  | 0, s, _, _ => s
  | fuel + 1, s, freed, toFree =>
    if s.hot ≠ [] ∧ freed < toFree then
      let nonLocked := (s.hot.enum.filter (fun p => ¬ p.2.isLocked)).map Prod.fst
      match nonLocked with
      | [] => s
      | i :: _ => optimizeHotGo fuel (moveToWarm s i).1 freed toFree
    else s

/-- ContextWindow.optimize, returning the new state and the freed
count. -/
def optimize (tokS : String → Int) (s : CW) (target : Rat) : CW × Int :=
  if usageR s ≤ target then (s, 0)
  else
    let targetTokens := pyInt ((availableTokens s : Rat) * target)
    let toFree := s.currentTokens - targetTokens
    let pr := optimizeWarmGo tokS s.warm.length s 0 toFree
    let s2 := optimizeHotGo pr.1.hot.length pr.1 pr.2 toFree
    (s2, pr.2)

/-- One ContextWindow operation. -/
inductive Op where
  | add (m : CWMsg) (priority : Int) (lock : Bool)
  | addMany (ms : List CWMsg) (priority : Int) (lock : Bool)
  | toWarm (i : Nat)
  | toCold (i : Nat) (summary : Option String)
  | remove (mid : Nat)
  | clearOp (keepLocked : Bool)
  | optimizeOp (target : Rat)

/-- Apply one operation. -/
def stepOp (tokOf : Nat → Int) (tokS : String → Int) (s : CW) : Op → CW
  | Op.add m p l => (addMessage tokOf s m p l).1
  | Op.addMany ms p l => (addMessages tokOf s ms p l).1
  | Op.toWarm i => (moveToWarm s i).1
  | Op.toCold i sm => (moveToCold tokS s i sm).1
  | Op.remove mid => (removeMessage s mid).1
  | Op.clearOp k => clearCW s k
  | Op.optimizeOp t => (optimize tokS s t).1

/-- Run a sequence of operations from a fresh window. -/
def runOps (tokOf : Nat → Int) (tokS : String → Int) (maxT resT : Int)
    (ops : List Op) : CW :=
  ops.foldl (stepOp tokOf tokS) (initCW maxT resT)

/-- The token cost the claim assigns to a segment in the cold band:
tokens(summary) + 20 when a summary was set, its token_count otherwise. -/
def coldCost (tokS : String → Int) (seg : Seg) : Int :=
  match seg.summary with
  | some str => tokS str + 20
  | none => seg.tokenCount

/-- Sum of token_count over a band. -/
def segSum (l : List Seg) : Int := (l.map (·.tokenCount)).sum

/-- Sum of claim costs over the cold band. -/
def coldSum (tokS : String → Int) (l : List Seg) : Int :=
  (l.map (coldCost tokS)).sum

/-- The token-accounting invariant of the claim: current_tokens is the
sum over all bands, cold segments counted at tokens(summary) + 20 when
their summary was set. -/
def accounted (tokS : String → Int) (s : CW) : Prop :=
  s.currentTokens = segSum s.hot + segSum s.warm + coldSum tokS s.cold

end Ctx

namespace Title

/-- Strip surrounding whitespace, as Python str.strip(). -/
def stripWS (s : String) : String := Py.pyStrip Char.isWhitespace s

/-- Strip surrounding double quotes, as str.strip of a quote. -/
def stripQ (s : String) : String := Py.pyStrip (fun c => c == '"') s

/-- The post-processing of ChatAgent.generate_title on the content the
LLM returned: a falsy content falls back to the default title, then
strip whitespace, strip double quotes twice, strip whitespace. -/
def titleFrom (content : Option String) : String :=
  let t :=
    match content with
    | some s => if s = "" then "新对话" else s
    | none => "新对话"
  stripWS (stripQ (stripQ (stripWS t)))

/-- A 25-character LLM reply. -/
def longReply : String := String.mk (List.replicate 25 'a')

end Title

namespace Py

theorem length_stripL_le (p : Char → Bool) (l : List Char) :
    (stripL p l).length ≤ l.length := by
  unfold stripL
  calc (((l.dropWhile p).reverse.dropWhile p).reverse).length
      = ((l.dropWhile p).reverse.dropWhile p).length := by
        simp
    _ ≤ (l.dropWhile p).reverse.length := ((l.dropWhile p).reverse.dropWhile_sublist p).length_le
    _ = (l.dropWhile p).length := by simp
    _ ≤ l.length := (l.dropWhile_sublist p).length_le

theorem length_pyStrip_le (p : Char → Bool) (s : String) :
    (pyStrip p s).length ≤ s.length :=
  length_stripL_le p s.toList

end Py

namespace Ctx

/-- C10: a message whose computed token count exceeds remaining_tokens
is rejected by add_message with an unchanged window: the returned state
(current_tokens, all three bands, and the message index) is exactly the
input state, and the success flag is false. -/
theorem c10_overflow_reject (tokOf : Nat → Int) (s : CW) (m : CWMsg)
    (p : Int) (l : Bool) (h : tokOf m.id > remainingTokens s) :
    addMessage tokOf s m p l = (s, false) := by
  unfold addMessage
  simp [h]

/-- Witness for C10 at a window of 4 available tokens and a 5-token
message. -/
theorem c10_overflow_reject_witness :
    (fun _ => (5 : Int)) (0 : Nat) > remainingTokens (initCW 4 0) ∧
      addMessage (fun _ => (5 : Int)) (initCW 4 0) ⟨0, 0⟩ 0 false
        = (initCW 4 0, false) :=
  ⟨by decide, c10_overflow_reject (fun _ => (5 : Int)) (initCW 4 0) ⟨0, 0⟩ 0 false (by decide)⟩

end Ctx

namespace Title

/-- C9 counterexample: when the LLM returns 25 characters for the title
prompt, generate_title returns all 25 of them; no 20-character bound is
enforced in code (the bound is only requested in the prompt). -/
theorem c9_title_counterexample :
    (titleFrom (some longReply)).length = 25 ∧
      ¬ (titleFrom (some longReply)).length ≤ 20 := by
  constructor
  · decide
  · decide

/-- C9 (amended): generate_title returns the LLM content stripped of
surrounding whitespace and double quotes (the empty content falling
back to the three-character default title), so its result is at most 20
characters exactly when the LLM returned at most 20; stripping never
lengthens the string. -/
theorem c9_title_amended (c : Option String) (h : (c.getD "").length ≤ 20) :
    (titleFrom c).length ≤ 20 := by
  match c with
  | none => decide
  | some s =>
    by_cases hs : s = ""
    · subst hs; decide
    · have hrw : titleFrom (some s) = stripWS (stripQ (stripQ (stripWS s))) := by
        simp [titleFrom, hs]
      rw [hrw]
      have h1 := Py.length_pyStrip_le Char.isWhitespace s
      have h2 := Py.length_pyStrip_le (fun c => c == '"') (stripWS s)
      have h3 := Py.length_pyStrip_le (fun c => c == '"') (stripQ (stripWS s))
      have h4 := Py.length_pyStrip_le Char.isWhitespace (stripQ (stripQ (stripWS s)))
      have hc : (Option.getD (some s) "").length = s.length := rfl
      rw [hc] at h
      unfold stripWS stripQ at *
      omega

/-- Witness for C9 (amended) on a short reply. -/
theorem c9_title_amended_witness :
    ((some "  ok  " : Option String).getD "").length ≤ 20 ∧
      (titleFrom (some "  ok  ")).length ≤ 20 :=
  ⟨by decide, c9_title_amended (some "  ok  ") (by decide)⟩

end Title

namespace PQueue

/-- C4: the in-memory backend violates FIFO among equal priorities.
Enqueueing four messages of equal priority 3 in tag order 0, 1, 2, 3
into the asyncio.PriorityQueue heap (ordered by QueuedMessage.__lt__,
which compares priority only) and dequeueing them all yields tags
0, 2, 1, 3 — not the enqueue order. -/
theorem c4_fifo_code_bug :
    drainAll c4msgs = [⟨3, 0⟩, ⟨3, 2⟩, ⟨3, 1⟩, ⟨3, 3⟩] ∧
      drainAll c4msgs ≠ [⟨3, 0⟩, ⟨3, 1⟩, ⟨3, 2⟩, ⟨3, 3⟩] := by
  constructor
  · decide
  · decide

end PQueue

namespace Todo

theorem countP_insByIndex (x : StoredItem) (l : List StoredItem)
    (p : StoredItem → Bool) :
    (insByIndex x l).countP p = l.countP p + (if p x then 1 else 0) := by
  induction l with
  | nil => simp [insByIndex, List.countP_cons, List.countP_nil]
  | cons y ys ih =>
    unfold insByIndex
    split
    · simp only [List.countP_cons, ih]
      omega
    · simp only [List.countP_cons]

theorem countP_sortByIndex (l : List StoredItem) (p : StoredItem → Bool) :
    (sortByIndex l).countP p = l.countP p := by
  induction l with
  | nil => rfl
  | cons x xs ih =>
    unfold sortByIndex
    rw [countP_insByIndex, ih, List.countP_cons]

theorem countRunning_sort (l : List StoredItem) :
    countRunning (sortByIndex l) = countRunning l :=
  countP_sortByIndex l _

theorem countRunning_buildItems (items : List InItem) (idx : Nat) (st : Store) :
    countRunning ((buildItems idx st items).1) = countRunningIn items := by
  induction items generalizing idx st with
  | nil => rfl
  | cons it rest ih =>
    unfold buildItems countRunning countRunningIn
    simp only [List.countP_cons]
    have := ih (idx + 1)
    unfold countRunning countRunningIn at this
    simp [this]

theorem countRunningIn_promote (l : List InItem)
    (h : countRunningIn l = 0) :
    countRunningIn (promoteFirstPending l)
      = (if countPendingIn l = 0 then 0 else 1) := by
  induction l with
  | nil => simp [promoteFirstPending, countRunningIn, countPendingIn]
  | cons i rest ih =>
    have hcons : countRunningIn (i :: rest) = countRunningIn rest
        + (if i.status = ItemStatus.running then 1 else 0) := by
      simp [countRunningIn, List.countP_cons]
    rw [hcons] at h
    have hrest : countRunningIn rest = 0 := by omega
    have hi : ¬ i.status = ItemStatus.running := by
      by_contra hc
      simp [hc] at h
    unfold promoteFirstPending
    split
    · rename_i hp
      have : countRunningIn ({ i with status := ItemStatus.running } :: rest)
          = countRunningIn rest + 1 := by
        simp [countRunningIn, List.countP_cons]
      rw [this, hrest]
      have : countPendingIn (i :: rest) = countPendingIn rest + 1 := by
        simp [countPendingIn, List.countP_cons, hp]
      rw [this]
      simp
    · rename_i hp
      have h1 : countRunningIn (i :: promoteFirstPending rest)
          = countRunningIn (promoteFirstPending rest) := by
        simp [countRunningIn, List.countP_cons, hi]
      have h2 : countPendingIn (i :: rest) = countPendingIn rest := by
        simp [countPendingIn, List.countP_cons, hp]
      rw [h1, h2, ih hrest]

theorem countRunningIn_enforce (l : List InItem) (h : countRunningIn l = 0) :
    countRunningIn (enforceRunning l)
      = (if countPendingIn l = 0 then 0 else 1) := by
  unfold enforceRunning
  rcases l with _ | ⟨i, rest⟩
  · simp [countRunningIn, countPendingIn]
  · have hany : ¬ (i :: rest).any (fun j => decide (j.status = ItemStatus.running)) := by
      rw [List.any_eq_true]
      intro ⟨a, ha, hpa⟩
      have := List.countP_eq_zero.mp h a ha
      simp_all
    simp only [ne_eq, reduceCtorEq, not_false_iff, hany, true_and, if_pos,
      not_false_eq_true]
    exact countRunningIn_promote _ h

/-- C2 counterexample: a manage_todo_list call supplying two running
items is committed with two running items; the handler only promotes
when zero running items were supplied and never demotes extras, so the
claimed at-most-one-running invariant fails. -/
theorem c2_running_counterexample :
    countRunning (handleTodoToolCall ⟨none, 0⟩ "t" c2raw).1.items = 2 ∧
      ¬ countRunning (handleTodoToolCall ⟨none, 0⟩ "t" c2raw).1.items ≤ 1 := by
  constructor
  · decide
  · decide

/-- C2 (amended): when a manage_todo_list tool call supplies zero
running items, the committed list has exactly one running item if any
pending item was supplied and zero otherwise — in particular at most
one.  (With running items supplied, the handler persists them as they
are, so at most one running holds only when the caller supplies at most
one.) -/
theorem c2_running_amended (st : Store) (title : String) (raw : List RawItem)
    (h : countRunningIn (buildTodoItems raw) = 0) :
    countRunning (handleTodoToolCall st title raw).1.items
        = (if countPendingIn (buildTodoItems raw) = 0 then 0 else 1) ∧
      countRunning (handleTodoToolCall st title raw).1.items ≤ 1 := by
  have hmain : countRunning (handleTodoToolCall st title raw).1.items
      = countRunningIn (enforceRunning (buildTodoItems raw)) := by
    unfold handleTodoToolCall createOrReplace toSchema
    simp only
    rw [countRunning_sort, countRunning_buildItems]
  rw [hmain, countRunningIn_enforce _ h]
  constructor
  · rfl
  · split <;> omega

/-- Witness for C2 (amended): two pending items supplied, one running
committed. -/
theorem c2_running_amended_witness :
    countRunningIn (buildTodoItems [RawItem.strIt "a", RawItem.strIt "b"]) = 0 ∧
      countRunning (handleTodoToolCall ⟨none, 0⟩ "t"
        [RawItem.strIt "a", RawItem.strIt "b"]).1.items ≤ 1 :=
  ⟨by decide, (c2_running_amended ⟨none, 0⟩ "t"
    [RawItem.strIt "a", RawItem.strIt "b"] (by decide)).2⟩

end Todo

namespace Todo

/-- C1 counterexample: create a list (revision 1), bump it via
set_item_status (revision 2), then commit a create-or-replace mutation:
its snapshot has revision 1, which is not strictly greater than the
revision 2 of the immediately preceding snapshot. -/
theorem c1_revision_counterexample :
    c1step2.isSome = true ∧
      (toSchema (c1step2.getD c1step1).1).revision = 2 ∧
      (toSchema c1step3.1).revision = 1 ∧
      ¬ (toSchema c1step3.1).revision
          > (toSchema (c1step2.getD c1step1).1).revision := by
  refine ⟨by decide, by decide, by decide, by decide⟩

/-- C1 (amended): the mutators advance_step, set_item_status and
complete_all yield a snapshot whose revision is exactly one more than
(hence strictly greater than) the stored revision, while a committed
create-or-replace always yields a snapshot with revision 1, regardless
of the previously stored revision. -/
theorem c1_revision_amended (st : Store) (tl : StoredList)
    (h : st.list? = some tl) :
    (∀ iid status out, setItemStatus st iid status = some out →
        (toSchema out.1).revision = tl.revision + 1) ∧
      (∀ out, advanceStep st = some out →
        (toSchema out.1).revision = tl.revision + 1) ∧
      (∀ out, completeAll st = some out →
        (toSchema out.1).revision = tl.revision + 1) ∧
      (∀ title items, (toSchema (createOrReplace st title items).1).revision = 1) := by
  refine ⟨?_, ?_, ?_, ?_⟩
  · intro iid status out hout
    unfold setItemStatus at hout
    rw [h] at hout
    by_cases hf : tl.items.any (fun i => i.id = iid)
    · simp only [hf, if_pos] at hout
      cases hout
      rfl
    · simp [hf] at hout
  · intro out hout
    unfold advanceStep at hout
    rw [h] at hout
    cases hout
    rfl
  · intro out hout
    unfold completeAll at hout
    rw [h] at hout
    cases hout
    rfl
  · intro title items
    rfl

/-- Witness for C1 (amended) on the store holding the one-item list of
the counterexample run. -/
theorem c1_revision_amended_witness :
    c1step1.2.list? = some c1step1.1 ∧
      (toSchema (createOrReplace c1step1.2 "x" []).1).revision = 1 :=
  ⟨by decide, (c1_revision_amended c1step1.2 c1step1.1 (by decide)).2.2.2 "x" []⟩

end Todo

namespace ToolExec

theorem getD_map_of_lt {α β : Type} [Inhabited α] [Inhabited β]
    (f : α → β) (l : List α) (i : Nat) (hi : i < l.length) :
    (l.map f).getD i default = f (l.getD i default) := by
  have h1 : l[i]? = some l[i] := List.getElem?_eq_getElem hi
  simp [List.getD, List.getElem?_map, h1]

/-- C6: ToolExecutor.execute returns one result per call, in input
order, each depending only on its own call (so one call's failure never
changes a sibling's result); a call whose arguments fail JSON parsing
yields success = false with error Invalid JSON arguments, and a call
naming an unregistered tool yields success = false with the
Tool-not-found error. -/
theorem c6_executor_contract (parseOk : String → Bool)
    (registry : String → Option (String → Outcome)) (timeoutMsg : String)
    (calls : List ToolCallIn) :
    (execute parseOk registry timeoutMsg calls).length = calls.length ∧
      (∀ i, i < calls.length →
        (execute parseOk registry timeoutMsg calls).getD i default
          = execSingle parseOk registry timeoutMsg (calls.getD i default)) ∧
      (∀ tc : ToolCallIn, parseOk (tc.args?.getD "\x7b\x7d") = false →
        execSingle parseOk registry timeoutMsg tc
          = ⟨tc.id?.getD "", tc.name?.getD "", false, "",
              some "Invalid JSON arguments"⟩) ∧
      (∀ tc : ToolCallIn, parseOk (tc.args?.getD "\x7b\x7d") = true →
        registry (tc.name?.getD "") = none →
        execSingle parseOk registry timeoutMsg tc
          = ⟨tc.id?.getD "", tc.name?.getD "", false, "",
              some ("Tool \x27" ++ tc.name?.getD "" ++ "\x27 not found")⟩) := by
  refine ⟨by simp [execute], ?_, ?_, ?_⟩
  · intro i hi
    exact getD_map_of_lt _ calls i hi
  · intro tc hp
    unfold execSingle
    simp [hp]
  · intro tc hp hr
    unfold execSingle
    simp [hp, hr]

/-- Witness for C6 on a two-call batch: a call with unparsable
arguments next to a call of an unregistered tool. -/
theorem c6_executor_contract_witness :
    (1 : Nat) < ([⟨some "a", some "t1", some "bad"⟩,
        ⟨some "b", some "t2", some "ok"⟩] : List ToolCallIn).length ∧
      ((fun s => decide (s = "ok")) ("bad") = false) ∧
      (execute (fun s => decide (s = "ok")) (fun _ => none) "timed out"
          [⟨some "a", some "t1", some "bad"⟩, ⟨some "b", some "t2", some "ok"⟩]).getD 1 default
        = execSingle (fun s => decide (s = "ok")) (fun _ => none) "timed out"
            (([⟨some "a", some "t1", some "bad"⟩,
               ⟨some "b", some "t2", some "ok"⟩] : List ToolCallIn).getD 1 default) ∧
      execSingle (fun s => decide (s = "ok")) (fun _ => none) "timed out"
          ⟨some "a", some "t1", some "bad"⟩
        = ⟨"a", "t1", false, "", some "Invalid JSON arguments"⟩ :=
  ⟨by decide, by decide,
    (c6_executor_contract (fun s => decide (s = "ok")) (fun _ => none) "timed out"
      [⟨some "a", some "t1", some "bad"⟩, ⟨some "b", some "t2", some "ok"⟩]).2.1 1 (by decide),
    (c6_executor_contract (fun s => decide (s = "ok")) (fun _ => none) "timed out"
      [⟨some "a", some "t1", some "bad"⟩]).2.2.1 ⟨some "a", some "t1", some "bad"⟩ (by decide)⟩

end ToolExec

namespace Sandbox

theorem find?_isSome_any (p : α → Bool) (l : List α) :
    (l.find? p).isSome = l.any p := by
  induction l with
  | nil => rfl
  | cons a l ih => cases hpa : p a <;> simp [List.find?_cons, hpa, ih]

theorem checkImports_isSome (n : PNode) :
    (checkImports n).isSome = hasBlockedImp n := by
  cases n with
  | imp names =>
    simp only [checkImports, hasBlockedImp]
    rw [← find?_isSome_any]
    cases names.find? (fun nm => blockedModules.contains (topModule nm)) <;> rfl
  | impFrom m =>
    cases m with
    | none => rfl
    | some s =>
      simp only [checkImports, hasBlockedImp]
      cases hcb : blockedModules.contains (topModule s) <;> rfl
  | call f => rfl
  | block cs => rfl

theorem checkImports_blocked (n : PNode) (r : CheckResult)
    (h : checkImports n = some r) :
    r.passed = false ∧
      ∃ m, r.blockedReason = some ("Blocked module: " ++ m) ∧
        blockedModules.contains (topModule m) = true := by
  cases n with
  | imp names =>
    simp only [checkImports] at h
    rw [Option.map_eq_some'] at h
    obtain ⟨nm, hfind, hr⟩ := h
    have hp := List.find?_some hfind
    subst hr
    exact ⟨rfl, nm, rfl, hp⟩
  | impFrom m =>
    cases m with
    | none => simp only [checkImports] at h; cases h
    | some s =>
      simp only [checkImports] at h
      cases hcb : blockedModules.contains (topModule s) with
      | false =>
        rw [hcb] at h
        exact Option.noConfusion h
      | true =>
        rw [hcb] at h
        have h2 : some (blockedRes s) = some r := h
        cases h2
        exact ⟨rfl, s, rfl, hcb⟩
  | call f => simp only [checkImports] at h; cases h
  | block cs => simp only [checkImports] at h; cases h

/-- C7: SecurityChecker.validate fails exactly for unparsable code or
an AST containing an import or from-import whose top-level module is
blocked; a syntax error reports its line and message, a blocked import
reports the blocked module, and an AST with no blocked import passes
with the dangerous-call warnings only (such calls never block). -/
theorem c7_validate_spec (p : Except (Int × String) PNode) :
    ((validate p).passed = false ↔
        (∃ e, p = Except.error e) ∨
          (∃ t, p = Except.ok t ∧ ∃ n ∈ walk t, hasBlockedImp n = true)) ∧
      (∀ ln msg, (validate (Except.error (ln, msg))).blockedReason
          = some ("Syntax error at line " ++ toString ln ++ ": " ++ msg)) ∧
      (∀ t, (validate (Except.ok t)).passed = false →
        ∃ m, (validate (Except.ok t)).blockedReason
            = some ("Blocked module: " ++ m) ∧
          blockedModules.contains (topModule m) = true) ∧
      (∀ t, (∀ n ∈ walk t, hasBlockedImp n = false) →
        (validate (Except.ok t)).passed = true ∧
          (validate (Except.ok t)).warnings = (walk t).filterMap checkCalls) := by
  have hok : ∀ t, validate (Except.ok t)
      = (match (walk t).findSome? checkImports with
        | some r => r
        | none => ⟨true, none, (walk t).filterMap checkCalls⟩) := by
    intro t
    rfl
  refine ⟨?_, ?_, ?_, ?_⟩
  · cases p with
    | error e =>
      obtain ⟨ln, msg⟩ := e
      exact iff_of_true rfl (Or.inl ⟨(ln, msg), rfl⟩)
    | ok t =>
      rw [hok t]
      cases h : (walk t).findSome? checkImports with
      | some r =>
        obtain ⟨n, hn, hcn⟩ := List.exists_of_findSome?_eq_some h
        have hb := (checkImports_blocked n r hcn).1
        have hblk : hasBlockedImp n = true := by
          rw [← checkImports_isSome, hcn]
          rfl
        constructor
        · intro _
          exact Or.inr ⟨t, rfl, n, hn, hblk⟩
        · intro _
          exact hb
      | none =>
        constructor
        · intro hfalse
          exact Bool.noConfusion hfalse
        · intro hcase
          rcases hcase with ⟨e, he⟩ | ⟨t', ht', n, hn, hblocked⟩
          · cases he
          · cases ht'
            have hnone := List.findSome?_eq_none_iff.mp h n hn
            rw [← checkImports_isSome, hnone] at hblocked
            exact Bool.noConfusion hblocked
  · intro ln msg
    rfl
  · intro t hpass
    rw [hok t] at hpass ⊢
    cases h : (walk t).findSome? checkImports with
    | some r =>
      obtain ⟨n, _, hcn⟩ := List.exists_of_findSome?_eq_some h
      exact (checkImports_blocked n r hcn).2
    | none =>
      rw [h] at hpass
      exact Bool.noConfusion hpass
  · intro t hb
    have hnone : (walk t).findSome? checkImports = none := by
      rw [List.findSome?_eq_none_iff]
      intro n hn
      have hbn := hb n hn
      rw [← checkImports_isSome] at hbn
      cases hco : checkImports n with
      | none => rfl
      | some r =>
        rw [hco] at hbn
        exact Bool.noConfusion hbn
    rw [hok t, hnone]
    exact ⟨rfl, rfl⟩

/-- Witness for C7: validate blocks the import ctypes module and passes
the module whose only statement is the warned call os.system. -/
theorem c7_validate_spec_witness :
    ((validate (Except.ok c7tree)).passed = false ∧
      ∃ m, (validate (Except.ok c7tree)).blockedReason
          = some ("Blocked module: " ++ m) ∧
        blockedModules.contains (topModule m) = true) ∧
      ((∀ n ∈ walk c7callTree, hasBlockedImp n = false) ∧
        (validate (Except.ok c7callTree)).passed = true) :=
  ⟨⟨by decide, (c7_validate_spec (Except.ok c7tree)).2.2.1 c7tree (by decide)⟩,
    ⟨by decide, ((c7_validate_spec (Except.ok c7callTree)).2.2.2 c7callTree (by decide)).1⟩⟩

end Sandbox

namespace Compressor

theorem foldl_add_ite_nonneg (c : String × Rat → Bool) :
    ∀ (l : List (String × Rat)) (acc : Rat), 0 ≤ acc →
      (∀ q ∈ l, 0 ≤ q.2) →
      0 ≤ l.foldl (fun a p => if c p then a + p.2 else a) acc := by
  intro l
  induction l with
  | nil => intro acc ha _; exact ha
  | cons q rest ih =>
    intro acc ha hw
    simp only [List.foldl_cons]
    have hq : (0 : Rat) ≤ q.2 := hw q (List.mem_cons_self q rest)
    have hnext : (0 : Rat) ≤ if c q then acc + q.2 else acc := by
      split
      · exact add_nonneg ha hq
      · exact ha
    exact ih _ hnext (fun p hp => hw p (List.mem_cons_of_mem q hp))

theorem keywordWeights_nonneg : ∀ q ∈ keywordWeights, (0 : Rat) ≤ q.2 := by
  intro q hq
  simp only [keywordWeights, List.mem_cons, List.not_mem_nil, or_false] at hq
  rcases hq with rfl | rfl | rfl | rfl | rfl | rfl | rfl | rfl <;> norm_num

theorem keywordScore_nonneg (content : String) : 0 ≤ keywordScore content := by
  unfold keywordScore
  exact foldl_add_ite_nonneg _ keywordWeights 0 le_rfl keywordWeights_nonneg

theorem roleWeight_nonneg (r : Role) : 0 ≤ roleWeight r := by
  cases r <;> norm_num [roleWeight]

/-- C5: ImportanceScorer.score is the pure function
min(1, 0.3 base + 0.3 decay^(n-i-1) + 0.2 role_weight + 0.15 min(keyword_sum, 0.3)
+ 0.2 tool_bonus) — deterministic by construction — and lies in [0,1]
for a nonnegative decay factor and base score, with the role-weight
table system 1.0, user 0.8, assistant 0.6, tool 0.5. -/
theorem c5_score_spec (decay : Rat) (m : CMsg) (i n : Nat)
    (hd : 0 ≤ decay) (hb : 0 ≤ m.importanceScore) :
    score decay m i n
        = min 1 ((3 : Rat)/10 * m.importanceScore + 3/10 * decay ^ (n - i - 1)
            + 1/5 * roleWeight m.role
            + 3/20 * min (keywordScore m.content) (3/10)
            + (if m.hasToolCalls then 1/5 else 0)) ∧
      0 ≤ score decay m i n ∧ score decay m i n ≤ 1 ∧
      roleWeight Role.system = 1 ∧ roleWeight Role.user = 8/10 ∧
      roleWeight Role.assistant = 6/10 ∧ roleWeight Role.tool = 5/10 := by
  have hdef : score decay m i n
      = min 1 (m.importanceScore * (3/10) + decay ^ (n - i - 1) * (3/10)
          + roleWeight m.role * (1/5)
          + min (keywordScore m.content) (3/10) * (3/20)
          + (if m.hasToolCalls then (1 : Rat)/5 else 0)) := rfl
  have hsum : (0 : Rat) ≤ m.importanceScore * (3/10) + decay ^ (n - i - 1) * (3/10)
      + roleWeight m.role * (1/5)
      + min (keywordScore m.content) (3/10) * (3/20)
      + (if m.hasToolCalls then (1 : Rat)/5 else 0) := by
    have h1 : (0 : Rat) ≤ m.importanceScore * (3/10) :=
      mul_nonneg hb (by norm_num)
    have h2 : (0 : Rat) ≤ decay ^ (n - i - 1) * (3/10) :=
      mul_nonneg (pow_nonneg hd _) (by norm_num)
    have h3 : (0 : Rat) ≤ roleWeight m.role * (1/5) :=
      mul_nonneg (roleWeight_nonneg m.role) (by norm_num)
    have h4 : (0 : Rat) ≤ min (keywordScore m.content) (3/10) * (3/20) :=
      mul_nonneg (le_min (keywordScore_nonneg m.content) (by norm_num)) (by norm_num)
    have h5 : (0 : Rat) ≤ if m.hasToolCalls then (1 : Rat)/5 else 0 := by
      split
      · norm_num
      · exact le_rfl
    have := add_nonneg (add_nonneg (add_nonneg (add_nonneg h1 h2) h3) h4) h5
    exact this
  refine ⟨?_, ?_, ?_, rfl, by norm_num [roleWeight], by norm_num [roleWeight],
    by norm_num [roleWeight]⟩
  · rw [hdef]
    congr 1
    ring
  · rw [hdef]
    exact le_min (by norm_num) hsum
  · rw [hdef]
    exact min_le_left _ _

/-- Witness for C5 at decay 1 on the zero-base system message. -/
theorem c5_score_spec_witness :
    (0 : Rat) ≤ 1 ∧ (0 : Rat) ≤ cmSys.importanceScore ∧
      (0 ≤ score 1 cmSys 0 3 ∧ score 1 cmSys 0 3 ≤ 1) :=
  ⟨by simp, by simp [cmSys],
    ⟨(c5_score_spec 1 cmSys 0 3 (by simp) (by simp [cmSys])).2.1,
      (c5_score_spec 1 cmSys 0 3 (by simp) (by simp [cmSys])).2.2.1⟩⟩

end Compressor

namespace Compressor

theorem c3score0 : ¬ ((7 : Rat)/10 ≤ score (19/20) cmUser 0 6) := by
  simp [score, cmUser, roleWeight, keywordScore, keywordWeights,
    hasSub, startsWithL, min_def]
  norm_num

theorem c3score1 : ¬ ((7 : Rat)/10 ≤ score (19/20) cmUser 1 6) := by
  simp [score, cmUser, roleWeight, keywordScore, keywordWeights,
    hasSub, startsWithL, min_def]
  norm_num

theorem c3score2 : ¬ ((7 : Rat)/10 ≤ score (19/20) cmUser 2 6) := by
  simp [score, cmUser, roleWeight, keywordScore, keywordWeights,
    hasSub, startsWithL, min_def]
  norm_num

theorem c3keep0 : keepB c3msgs 0 (c3msgs.getD 0 default) = false := by
  unfold keepB
  rw [show c3msgs.length = 6 from rfl]
  rw [show c3msgs.getD 0 default = cmUser from rfl]
  rw [decide_eq_false c3score0]
  rfl

theorem c3keep1 : keepB c3msgs 1 (c3msgs.getD 1 default) = false := by
  unfold keepB
  rw [show c3msgs.length = 6 from rfl]
  rw [show c3msgs.getD 1 default = cmUser from rfl]
  rw [decide_eq_false c3score1]
  rfl

theorem c3keep2 : keepB c3msgs 2 (c3msgs.getD 2 default) = false := by
  unfold keepB
  rw [show c3msgs.length = 6 from rfl]
  rw [show c3msgs.getD 2 default = cmUser from rfl]
  rw [decide_eq_false c3score2]
  rfl

theorem c3keep3 : keepB c3msgs 3 (c3msgs.getD 3 default) = true := by
  unfold keepB
  rw [show c3msgs.getD 3 default = cmSys from rfl]
  rfl

theorem c3keep4 : keepB c3msgs 4 (c3msgs.getD 4 default) = true := by
  unfold keepB
  rw [show c3msgs.length = 6 from rfl]
  simp

theorem c3keep5 : keepB c3msgs 5 (c3msgs.getD 5 default) = true := by
  unfold keepB
  rw [show c3msgs.length = 6 from rfl]
  simp

theorem c3compress_val : (compress c3msgs).1 = [cmSys, cmUser, cmUser] := by
  unfold compress
  rw [if_neg (by decide : ¬ c3msgs.length < 3)]
  simp only
  rw [show List.range c3msgs.length = [0, 1, 2, 3, 4, 5] from by decide]
  simp only [List.filter_cons, List.filter_nil, c3keep0, c3keep1, c3keep2,
    c3keep3, c3keep4, c3keep5]
  rfl

theorem c3enum : c3msgs.enum
    = [(0, cmUser), (1, cmUser), (2, cmUser), (3, cmSys), (4, cmUser),
       (5, cmUser)] := rfl

theorem c3claim_val : claimRetained c3msgs
    = [cmUser, cmSys, cmUser, cmUser] := by
  unfold claimRetained
  rw [c3enum]
  simp only [show lastThreeNonSysIdx c3msgs = [2, 4, 5] from rfl,
    show c3msgs.length = 6 from rfl]
  simp only [List.filter_cons, List.filter_nil,
    decide_eq_false c3score0, decide_eq_false c3score1]
  simp
  rfl

/-- C3 counterexample: on five user messages around one system message
in position 3 of 6, the code retains positions 3, 4, 5 (the last three
positions plus the system message among them), while the claimed
retention set also keeps position 2, the third-last non-system message. -/
theorem c3_retention_counterexample :
    3 ≤ c3msgs.length ∧ (compress c3msgs).1 ≠ claimRetained c3msgs := by
  refine ⟨by decide, ?_⟩
  rw [c3compress_val, c3claim_val]
  intro hcontra
  have := congrArg List.length hcontra
  simp at this

theorem enumFrom_eq_range_map [Inhabited α] :
    ∀ (l : List α) (k : Nat),
      l.enumFrom k
        = (List.range l.length).map (fun i => (k + i, l.getD i default)) := by
  intro l
  induction l with
  | nil => intro k; rfl
  | cons x xs ih =>
    intro k
    rw [List.enumFrom_cons, List.length_cons, List.range_succ_eq_map,
      List.map_cons]
    congr 1
    rw [ih (k + 1), List.map_map]
    apply List.map_congr_left
    intro i _
    show ((k + 1) + i, xs.getD i default) = (k + (i + 1), (x :: xs).getD (i + 1) default)
    rw [List.getD_cons_succ, show (k + 1) + i = k + (i + 1) from by omega]

theorem enum_eq_range_map [Inhabited α] (l : List α) :
    l.enum = (List.range l.length).map (fun i => (i, l.getD i default)) := by
  have h := enumFrom_eq_range_map l 0
  simpa [List.enum] using h

/-- C3 (amended): for at least 3 messages, the retained set is exactly
every system message, the messages at the last 3 positions of the list
(of any role, not the last 3 non-system messages), and every message
scoring at least 0.7, in original order; all other messages are the
ones handed to the summarizer, also in original order. -/
theorem c3_retention_amended (msgs : List CMsg) (h : 3 ≤ msgs.length) :
    (compress msgs).1
        = (msgs.enum.filter (fun p =>
            p.2.role == Role.system || decide (msgs.length - 3 ≤ p.1)
              || decide ((7 : Rat)/10 ≤ score (19/20) p.2 p.1 msgs.length))).map
            Prod.snd ∧
      (compress msgs).2
        = (msgs.enum.filter (fun p =>
            ¬ (p.2.role == Role.system || decide (msgs.length - 3 ≤ p.1)
              || decide ((7 : Rat)/10 ≤ score (19/20) p.2 p.1 msgs.length)))).map
            Prod.snd := by
  constructor
  · show (compress msgs).1
        = (msgs.enum.filter (fun p => keepB msgs p.1 p.2)).map Prod.snd
    unfold compress
    rw [if_neg (by omega)]
    simp only
    rw [enum_eq_range_map msgs, List.filter_map, List.map_map]
    rfl
  · show (compress msgs).2
        = (msgs.enum.filter (fun p => ¬ keepB msgs p.1 p.2)).map Prod.snd
    unfold compress
    rw [if_neg (by omega)]

end Compressor

namespace Compressor

/-- Witness for C3 (amended) on the six-message counterexample list. -/
theorem c3_retention_amended_witness :
    3 ≤ c3msgs.length ∧
      (compress c3msgs).1
        = (c3msgs.enum.filter (fun p =>
            p.2.role == Role.system || decide (c3msgs.length - 3 ≤ p.1)
              || decide ((7 : Rat)/10 ≤ score (19/20) p.2 p.1 c3msgs.length))).map
            Prod.snd :=
  ⟨by decide, (c3_retention_amended c3msgs (by decide)).1⟩

end Compressor

namespace Ctx

theorem segSum_nil : segSum [] = 0 := rfl

theorem segSum_cons (s : Seg) (l : List Seg) :
    segSum (s :: l) = s.tokenCount + segSum l := by
  simp [segSum]

theorem segSum_append1 (l : List Seg) (x : Seg) :
    segSum (l ++ [x]) = segSum l + x.tokenCount := by
  simp [segSum]

theorem coldSum_append1 (tokS : String → Int) (l : List Seg) (x : Seg) :
    coldSum tokS (l ++ [x]) = coldSum tokS l + coldCost tokS x := by
  simp [coldSum]

theorem segSum_eraseIdx :
    ∀ (l : List Seg) (i : Nat), i < l.length →
      segSum (l.eraseIdx i) = segSum l - (l.getD i default).tokenCount
  | [], i, h => by simp at h
  | s :: rest, 0, _ => by
    rw [show (s :: rest).eraseIdx 0 = rest from rfl, segSum_cons,
      show (s :: rest).getD 0 default = s from rfl]
    omega
  | s :: rest, i + 1, h => by
    have ih := segSum_eraseIdx rest i (by simpa using h)
    rw [show (s :: rest).eraseIdx (i + 1) = s :: rest.eraseIdx i from rfl,
      segSum_cons, segSum_cons, ih,
      show (s :: rest).getD (i + 1) default = rest.getD i default from rfl]
    omega

theorem segSum_set :
    ∀ (l : List Seg) (i : Nat) (x : Seg), i < l.length →
      segSum (l.set i x) = segSum l + x.tokenCount
        - (l.getD i default).tokenCount
  | [], i, x, h => by simp at h
  | s :: rest, 0, x, _ => by
    rw [show (s :: rest).set 0 x = x :: rest from rfl, segSum_cons, segSum_cons,
      show (s :: rest).getD 0 default = s from rfl]
    omega
  | s :: rest, i + 1, x, h => by
    have ih := segSum_set rest i x (by simpa using h)
    rw [show (s :: rest).set (i + 1) x = s :: rest.set i x from rfl,
      segSum_cons, segSum_cons, ih,
      show (s :: rest).getD (i + 1) default = rest.getD i default from rfl]
    omega

theorem segSum_dropLast :
    ∀ (l : List Seg), l ≠ [] →
      segSum l.dropLast = segSum l - (l.getLastD default).tokenCount
  | [], h => absurd rfl h
  | [x], _ => by
    rw [show ([x] : List Seg).dropLast = [] from rfl, segSum_cons, segSum_nil,
      show ([x] : List Seg).getLastD default = x from rfl]
    omega
  | x :: y :: rest, _ => by
    have ih := segSum_dropLast (y :: rest) (by simp)
    rw [List.dropLast_cons₂, segSum_cons, segSum_cons, ih,
      show (x :: y :: rest).getLastD default = (y :: rest).getLastD default from by
        simp]
    omega

theorem getD_mem (l : List Seg) (i : Nat) (h : i < l.length) :
    l.getD i default ∈ l := by
  rw [List.getD_eq_getElem?_getD, List.getElem?_eq_getElem h]
  exact List.getElem_mem h

theorem getLastD_mem (l : List Seg) (h : l ≠ []) :
    l.getLastD default ∈ l := by
  rw [List.getLastD_eq_getLast?]
  cases hl : l.getLast? with
  | none => exact absurd (List.getLast?_eq_none_iff.mp hl) h
  | some a => simpa using List.mem_of_getLast?_eq_some hl

/-- Hot and warm segments never carry a summary: only move_to_cold sets
one, and segments never leave the cold band.  This auxiliary invariant
makes the token accounting inductive. -/
def nosumHW (s : CW) : Prop :=
  (∀ sg ∈ s.hot, sg.summary = none) ∧ (∀ sg ∈ s.warm, sg.summary = none)

/-- The joint inductive invariant. -/
def invCW (tokS : String → Int) (s : CW) : Prop :=
  accounted tokS s ∧ nosumHW s

theorem invCW_addMessage (tokOf : Nat → Int) (tokS : String → Int)
    (s : CW) (m : CWMsg) (p : Int) (l : Bool)
    (h : invCW tokS s) :
    invCW tokS (addMessage tokOf s m p l).1 := by
  obtain ⟨ha, hhot, hwarm⟩ := h
  unfold addMessage
  by_cases hover : tokOf m.id > remainingTokens s
  · rw [if_pos hover]
    exact ⟨ha, hhot, hwarm⟩
  · rw [if_neg hover]
    by_cases hnew : (s.hot.isEmpty || shouldCreateNew s) = true
    · rw [if_pos hnew]
      refine ⟨?_, ?_, hwarm⟩
      · unfold accounted at ha ⊢
        dsimp only
        rw [segSum_append1]
        dsimp only
        omega
      · intro sg hsg
        dsimp only at hsg
        rcases List.mem_append.mp hsg with hin | hone
        · exact hhot sg hin
        · rw [List.mem_singleton.mp hone]
    · rw [if_neg hnew]
      have hne : s.hot ≠ [] := by
        intro hnil
        rw [hnil] at hnew
        simp at hnew
      refine ⟨?_, ?_, hwarm⟩
      · unfold accounted at ha ⊢
        dsimp only
        rw [segSum_append1, segSum_dropLast s.hot hne]
        dsimp only
        omega
      · intro sg hsg
        dsimp only at hsg
        rcases List.mem_append.mp hsg with hin | hone
        · exact hhot sg ((s.hot.dropLast_sublist).subset hin)
        · rw [List.mem_singleton.mp hone]
          show (s.hot.getLastD default).summary = none
          exact hhot _ (getLastD_mem s.hot hne)

theorem invCW_moveToWarm (tokS : String → Int) (s : CW) (i : Nat)
    (h : invCW tokS s) :
    invCW tokS (moveToWarm s i).1 := by
  obtain ⟨ha, hhot, hwarm⟩ := h
  unfold moveToWarm
  by_cases hi : i ≥ s.hot.length
  · rw [if_pos hi]
    exact ⟨ha, hhot, hwarm⟩
  · rw [if_neg hi]
    refine ⟨?_, ?_, ?_⟩
    · unfold accounted at ha ⊢
      dsimp only
      rw [segSum_append1, segSum_eraseIdx s.hot i (by omega)]
      omega
    · intro sg hsg
      exact hhot sg ((s.hot.eraseIdx_sublist i).subset hsg)
    · intro sg hsg
      dsimp only at hsg
      rcases List.mem_append.mp hsg with hin | hone
      · exact hwarm sg hin
      · rw [List.mem_singleton.mp hone]
        exact hhot _ (getD_mem s.hot i (by omega))

theorem invCW_moveToCold (tokS : String → Int) (s : CW) (i : Nat)
    (summary : Option String) (h : invCW tokS s) :
    invCW tokS (moveToCold tokS s i summary).1 := by
  obtain ⟨ha, hhot, hwarm⟩ := h
  unfold moveToCold
  by_cases hi : i ≥ s.warm.length
  · rw [if_pos hi]
    exact ⟨ha, hhot, hwarm⟩
  · rw [if_neg hi]
    have hsegmem := getD_mem s.warm i (by omega)
    have hsegnone := hwarm _ hsegmem
    have herase := segSum_eraseIdx s.warm i (by omega)
    refine ⟨?_, hhot, ?_⟩
    · unfold accounted at ha ⊢
      match summary with
      | none =>
        dsimp only
        rw [coldSum_append1, herase]
        unfold coldCost
        rw [hsegnone]
        dsimp only
        omega
      | some str =>
        dsimp only
        by_cases hstr : str = ""
        · rw [if_pos hstr]
          dsimp only
          rw [coldSum_append1, herase]
          unfold coldCost
          rw [hsegnone]
          dsimp only
          omega
        · rw [if_neg hstr]
          dsimp only
          rw [coldSum_append1, herase]
          unfold coldCost
          dsimp only
          omega
    · intro sg hsg
      exact hwarm sg ((s.warm.eraseIdx_sublist i).subset hsg)

theorem removeCore_eq (segs : List Seg) (segIdx msgIdx : Nat)
    (out : List Seg × CWMsg) (h : removeCore segs segIdx msgIdx = some out) :
    segSum out.1 = segSum segs - out.2.tokenCount ∧
      (∀ x ∈ out.1, ∃ y ∈ segs, x.summary = y.summary) := by
  unfold removeCore at h
  by_cases h1 : segIdx ≥ segs.length
  · rw [if_pos h1] at h
    cases h
  · rw [if_neg h1] at h
    by_cases h2 : msgIdx ≥ (segs.getD segIdx default).msgs.length
    · rw [if_pos h2] at h
      cases h
    · rw [if_neg h2] at h
      dsimp only at h
      injection h with h3
      subst h3
      constructor
      · dsimp only
        rw [segSum_set segs segIdx _ (by omega)]
        dsimp only
        omega
      · intro x hx
        dsimp only at hx
        rcases List.mem_or_eq_of_mem_set hx with hin | hxeq
        · exact ⟨x, hin, rfl⟩
        · subst hxeq
          exact ⟨segs.getD segIdx default, getD_mem segs segIdx (by omega), rfl⟩

theorem invCW_removeMessage (tokS : String → Int) (s : CW) (mid : Nat)
    (h : invCW tokS s) :
    invCW tokS (removeMessage s mid).1 := by
  obtain ⟨ha, hhot, hwarm⟩ := h
  unfold removeMessage
  cases hf : dictFind s.index mid with
  | none => exact ⟨ha, hhot, hwarm⟩
  | some entry =>
    obtain ⟨layer, segIdx, msgIdx⟩ := entry
    cases layer with
    | cold => exact ⟨ha, hhot, hwarm⟩
    | hot =>
      dsimp only
      cases hrc : removeCore s.hot segIdx msgIdx with
      | none => exact ⟨ha, hhot, hwarm⟩
      | some out =>
        obtain ⟨hsum, hmem⟩ := removeCore_eq s.hot segIdx msgIdx out hrc
        refine ⟨?_, ?_, hwarm⟩
        · unfold accounted at ha ⊢
          dsimp only
          omega
        · intro sg hsg
          dsimp only at hsg
          obtain ⟨y, hy, hxy⟩ := hmem sg hsg
          rw [hxy]
          exact hhot y hy
    | warm =>
      dsimp only
      cases hrc : removeCore s.warm segIdx msgIdx with
      | none => exact ⟨ha, hhot, hwarm⟩
      | some out =>
        obtain ⟨hsum, hmem⟩ := removeCore_eq s.warm segIdx msgIdx out hrc
        refine ⟨?_, hhot, ?_⟩
        · unfold accounted at ha ⊢
          dsimp only
          omega
        · intro sg hsg
          dsimp only at hsg
          obtain ⟨y, hy, hxy⟩ := hmem sg hsg
          rw [hxy]
          exact hwarm y hy

theorem invCW_clear (tokS : String → Int) (s : CW) (k : Bool)
    (h : invCW tokS s) :
    invCW tokS (clearCW s k) := by
  obtain ⟨_, hhot, _⟩ := h
  unfold clearCW
  refine ⟨?_, ?_, ?_⟩
  · unfold accounted
    dsimp only
    rw [show coldSum tokS [] = 0 from rfl, segSum_nil]
    simp [segSum]
  · intro sg hsg
    dsimp only at hsg
    by_cases hk : k
    · rw [if_pos hk] at hsg
      exact hhot sg (List.mem_of_mem_filter hsg)
    · rw [if_neg hk] at hsg
      cases hsg
  · intro sg hsg
    cases hsg

theorem invCW_addMessagesGo (tokOf : Nat → Int) (tokS : String → Int)
    (p : Int) (l : Bool) :
    ∀ (ms : List CWMsg) (s : CW) (n : Nat), invCW tokS s →
      invCW tokS (addMessagesGo tokOf p l s ms n).1
  | [], _, _, h => h
  | m :: rest, s, n, h => by
    unfold addMessagesGo
    have h' := invCW_addMessage tokOf tokS s m p l h
    by_cases hok : (addMessage tokOf s m p l).2 = true
    · rw [if_pos hok]
      exact invCW_addMessagesGo tokOf tokS p l rest _ _ h'
    · rw [if_neg hok]
      exact h'

theorem invCW_optimizeWarmGo (tokS : String → Int) :
    ∀ (fuel : Nat) (s : CW) (freed toFree : Int), invCW tokS s →
      invCW tokS (optimizeWarmGo tokS fuel s freed toFree).1
  | 0, _, _, _, h => h
  | fuel + 1, s, freed, toFree, h => by
    unfold optimizeWarmGo
    by_cases hc : s.warm ≠ [] ∧ freed < toFree
    · rw [if_pos hc]
      exact invCW_optimizeWarmGo tokS fuel _ _ _
        (invCW_moveToCold tokS s 0 (some placeholderSummary) h)
    · rw [if_neg hc]
      exact h

theorem invCW_optimizeHotGo (tokS : String → Int) :
    ∀ (fuel : Nat) (s : CW) (freed toFree : Int), invCW tokS s →
      invCW tokS (optimizeHotGo fuel s freed toFree)
  | 0, _, _, _, h => h
  | fuel + 1, s, freed, toFree, h => by
    unfold optimizeHotGo
    by_cases hc : s.hot ≠ [] ∧ freed < toFree
    · rw [if_pos hc]
      cases (s.hot.enum.filter (fun q => ¬ q.2.isLocked)).map Prod.fst with
      | nil => exact h
      | cons i rest =>
        exact invCW_optimizeHotGo tokS fuel _ _ _
          (invCW_moveToWarm tokS s i h)
    · rw [if_neg hc]
      exact h

theorem invCW_optimize (tokS : String → Int) (s : CW) (target : Rat)
    (h : invCW tokS s) :
    invCW tokS (optimize tokS s target).1 := by
  unfold optimize
  by_cases hg : usageR s ≤ target
  · rw [if_pos hg]
    exact h
  · rw [if_neg hg]
    exact invCW_optimizeHotGo tokS _ _ _ _
      (invCW_optimizeWarmGo tokS _ _ _ _ h)

theorem invCW_step (tokOf : Nat → Int) (tokS : String → Int) (s : CW)
    (op : Op) (h : invCW tokS s) :
    invCW tokS (stepOp tokOf tokS s op) := by
  cases op with
  | add m p l => exact invCW_addMessage tokOf tokS s m p l h
  | addMany ms p l => exact invCW_addMessagesGo tokOf tokS p l ms s 0 h
  | toWarm i => exact invCW_moveToWarm tokS s i h
  | toCold i sm => exact invCW_moveToCold tokS s i sm h
  | remove mid => exact invCW_removeMessage tokS s mid h
  | clearOp k => exact invCW_clear tokS s k h
  | optimizeOp t => exact invCW_optimize tokS s t h

/-- C8: after any sequence of ContextWindow operations (add_message,
add_messages, move_to_warm, move_to_cold, remove_message, clear,
optimize) starting from a fresh window, current_tokens equals the sum
of token_count over the hot and warm segments plus, for every cold
segment, tokens(summary) + 20 when its summary was set and its
token_count otherwise. -/
theorem c8_token_accounting (tokOf : Nat → Int) (tokS : String → Int)
    (maxT resT : Int) (ops : List Op) :
    accounted tokS (runOps tokOf tokS maxT resT ops) := by
  unfold runOps
  have hinit : invCW tokS (initCW maxT resT) := by
    refine ⟨?_, ?_, ?_⟩
    · unfold accounted initCW
      simp [segSum, coldSum]
    · intro sg hsg
      cases hsg
    · intro sg hsg
      cases hsg
  have hmain : ∀ (ops : List Op) (s0 : CW), invCW tokS s0 →
      invCW tokS (ops.foldl (stepOp tokOf tokS) s0) := by
    intro ops
    induction ops with
    | nil => intro s0 h; exact h
    | cons op rest ih =>
      intro s0 h
      rw [List.foldl_cons]
      exact ih _ (invCW_step tokOf tokS s0 op h)
  exact (hmain ops (initCW maxT resT) hinit).1

end Ctx
